import Mathlib

/-!
Shallow embedding of the reddit-ingestion service (Go) for verification of
its specification.  Go slices become Lean lists, Go strings become Lean
strings, machine integers become `Int`/`Nat`, `time.Time` values are kept as
their epoch-second `Unix()` value (an `Int`; the decoder truncates the
`created_utc` float to whole seconds before any code under scrutiny runs),
and functions that mutate through pointers and report success with a `Bool`
become functions returning `Option` of the updated value.  Wall-clock
timeout checks (`time.Since(...) > d`) and context cancellation are modelled
as never firing: the properties below concern the data path, not real time.
-/

namespace RedditIngestion

/-- Embeds `models.Post` (internal/models/models.go); `CreatedAt` is kept as
its epoch-second value. -/
structure Post where
  id : String
  title : String
  body : String
  author : String
  score : Int
  createdAt : Int
  flair : String
  url : String
deriving DecidableEq, Repr

/-- Embeds `models.Comment` (internal/models/models.go): a nested comment
tree.  Field order follows the Go struct: ID, Author, Body, Score,
CreatedAt, Replies, IsMore, MoreIDs, HasMore, MoreCount. -/
inductive Comment : Type where
  | mk (id author body : String) (score createdAt : Int)
       (replies : List Comment) (isMore : Bool) (moreIDs : List String)
       (hasMore : Bool) (moreCount : Int) : Comment

def Comment.id : Comment → String
  | .mk i _ _ _ _ _ _ _ _ _ => i

def Comment.author : Comment → String
  | .mk _ a _ _ _ _ _ _ _ _ => a

def Comment.body : Comment → String
  | .mk _ _ b _ _ _ _ _ _ _ => b

def Comment.score : Comment → Int
  | .mk _ _ _ s _ _ _ _ _ _ => s

def Comment.createdAt : Comment → Int
  | .mk _ _ _ _ t _ _ _ _ _ => t

def Comment.replies : Comment → List Comment
  | .mk _ _ _ _ _ r _ _ _ _ => r

def Comment.isMore : Comment → Bool
  | .mk _ _ _ _ _ _ m _ _ _ => m

def Comment.moreIDs : Comment → List String
  | .mk _ _ _ _ _ _ _ ids _ _ => ids

def Comment.hasMore : Comment → Bool
  | .mk _ _ _ _ _ _ _ _ h _ => h

def Comment.moreCount : Comment → Int
  | .mk _ _ _ _ _ _ _ _ _ c => c

/-- Replaces the `Replies` field, as the Go code does when it mutates a
comment's reply slice in place. -/
def Comment.setReplies : Comment → List Comment → Comment
  | .mk i a b s t _ m ids h c, r => .mk i a b s t r m ids h c

/-- Embeds `models.PostDetail`. -/
structure PostDetail where
  post : Post
  comments : List Comment

/-- Embeds `scraperService.filterComments` (internal/scraper/service.go
lines 1101-1122): removes `IsMore` placeholders from a comment list,
recursing into the replies of every kept comment (the recursive call runs
only when the reply slice is non-empty, exactly as in the source), and
returns the filtered list together with the number of removed nodes. -/
def filterComments : List Comment → List Comment × Nat
  | [] => ([], 0)
  | .mk i a b s t replies isM mIDs hasM mc :: rest =>
    let restResult := filterComments rest
    if isM then
      (restResult.1, restResult.2 + 1)
    else
      let repResult := if replies.isEmpty then (replies, 0) else filterComments replies
      (Comment.mk i a b s t repResult.1 isM mIDs hasM mc :: restResult.1,
       repResult.2 + restResult.2)

/-- Embeds `scraperService.cleanupMoreComments` (internal/scraper/service.go
lines 1084-1098): runs `filterComments` on the root list, then runs it again
on every root comment's (already filtered) reply list, accumulating the
removal count. -/
def cleanupMoreComments (detail : PostDetail) : PostDetail × Nat :=
  if detail.comments.isEmpty then (detail, 0)
  else
    let rootResult := filterComments detail.comments
    let second := rootResult.1.map (fun c =>
      if c.replies.isEmpty then (c, 0)
      else
        let r := filterComments c.replies
        (c.setReplies r.1, r.2))
    ({ detail with comments := second.map Prod.fst },
     rootResult.2 + (second.map Prod.snd).sum)

/-- Checks that no comment at any depth of the forest is an `IsMore`
placeholder. -/
def noMoreForest : List Comment → Bool
  | [] => true
  | .mk _ _ _ _ _ replies isM _ _ _ :: rest =>
    !isM && noMoreForest replies && noMoreForest rest

/-- Modelled from the spec: the amended final sweep, which removes every
`is_placeholder` node at every depth of the forest, keeping the remaining
comments in order.  Compared against `cleanupMoreComments` below. -/
def purgeForest : List Comment → List Comment
  | [] => []
  | .mk i a b s t replies isM mIDs hasM mc :: rest =>
    if isM then purgeForest rest
    else Comment.mk i a b s t (purgeForest replies) isM mIDs hasM mc :: purgeForest rest

/-- The filtered part of `filterComments` coincides with the full-depth
placeholder purge. -/
theorem filterComments_eq_purgeForest (cs : List Comment) :
    (filterComments cs).1 = purgeForest cs := by
  induction cs using filterComments.induct with
  | case1 => simp [filterComments, purgeForest]
  | case2 i a b s t replies isM mIDs hasM rest ih =>
    simp [filterComments, purgeForest, ih]
  | case3 i a b s t replies isM mIDs hasM mc rest h ih1 ih2 =>
    rcases hr : replies with _ | ⟨c, cs⟩ <;> subst hr <;>
      simp [filterComments, purgeForest, h, ih1, ih2]

/-- The purge leaves no placeholder at any depth. -/
theorem noMoreForest_purgeForest (cs : List Comment) :
    noMoreForest (purgeForest cs) = true := by
  induction cs using purgeForest.induct with
  | case1 => simp [purgeForest, noMoreForest]
  | case2 i a b s t replies isM mIDs hasM rest ih =>
    simp [purgeForest, noMoreForest, ih]
  | case3 i a b s t replies isM mIDs hasM mc rest h ih1 ih2 =>
    simp [purgeForest, noMoreForest, h, ih1, ih2]

/-- A forest with no placeholder anywhere is untouched by the purge. -/
theorem purgeForest_of_noMore (cs : List Comment) (h : noMoreForest cs = true) :
    purgeForest cs = cs := by
  induction cs using purgeForest.induct with
  | case1 => simp [purgeForest]
  | case2 i a b s t replies isM mIDs hasM rest ih =>
    simp [noMoreForest] at h
  | case3 i a b s t replies isM mIDs hasM mc rest hm ih1 ih2 =>
    simp [noMoreForest] at h
    simp [purgeForest, hm, ih1 h.1.2, ih2 h.2]

theorem Comment.setReplies_replies (c : Comment) : c.setReplies c.replies = c := by
  cases c
  rfl

/-- Membership in a placeholder-free forest gives a placeholder-free comment. -/
theorem noMoreForest_mem {cs : List Comment} {c : Comment}
    (h : noMoreForest cs = true) (hc : c ∈ cs) :
    c.isMore = false ∧ noMoreForest c.replies = true := by
  induction cs with
  | nil => cases hc
  | cons x rest ih =>
    obtain ⟨i, a, b, s, t, replies, isM, mIDs, hasM, mc⟩ := x
    simp [noMoreForest] at h
    rcases List.mem_cons.mp hc with hc | hc
    · subst hc
      exact ⟨by simpa [Comment.isMore] using h.1.1, by simpa [Comment.replies] using h.1.2⟩
    · exact ih h.2 hc

/-- The second sweep of `cleanupMoreComments` is the identity on the already
filtered root list. -/
theorem cleanupMoreComments_comments (detail : PostDetail) :
    (cleanupMoreComments detail).1.comments = purgeForest detail.comments := by
  unfold cleanupMoreComments
  by_cases he : detail.comments.isEmpty
  · rw [List.isEmpty_iff] at he
    simp [he, purgeForest]
  · simp only [he, if_false]
    have hpurged : noMoreForest (filterComments detail.comments).1 = true := by
      rw [filterComments_eq_purgeForest]; exact noMoreForest_purgeForest _
    have hmap : ∀ c ∈ (filterComments detail.comments).1,
        (if c.replies.isEmpty then (c, 0)
         else ((c.setReplies (filterComments c.replies).1), (filterComments c.replies).2)).1 = c := by
      intro c hc
      by_cases hr : c.replies.isEmpty
      · simp [hr]
      · have hnm := (noMoreForest_mem hpurged hc).2
        rw [filterComments_eq_purgeForest, purgeForest_of_noMore _ hnm,
          Comment.setReplies_replies]
        simp [hr]
    simp only [List.map_map]
    calc ((filterComments detail.comments).1.map fun c =>
            (if c.replies.isEmpty then (c, 0)
             else ((c.setReplies (filterComments c.replies).1), (filterComments c.replies).2)).1)
        = (filterComments detail.comments).1.map id := List.map_congr_left (by
            intro c hc; simpa using hmap c hc)
      _ = (filterComments detail.comments).1 := List.map_id _
      _ = purgeForest detail.comments := filterComments_eq_purgeForest _

/-- C1: for every PostDetail, the cleanup pass that `ScrapePost` runs before
returning (`cleanupMoreComments`) removes every `is_placeholder` (`IsMore`)
node at every depth of the comment forest: no placeholder survives in the
returned PostDetail of a successful `/post`. -/
theorem scrapePost_returns_no_placeholders (detail : PostDetail) :
    noMoreForest (cleanupMoreComments detail).1.comments = true := by
  rw [cleanupMoreComments_comments]; exact noMoreForest_purgeForest _

/-- Forest with a placeholder nested at depth two: root comment `c1`, its
reply `c2`, and below `c2` a placeholder `p`. -/
def exDeepDetail : PostDetail :=
  { post := { id := "post1", title := "", body := "", author := "", score := 0,
              createdAt := 0, flair := "", url := "" },
    comments := [Comment.mk "c1" "u1" "b1" 1 10
      [Comment.mk "c2" "u2" "b2" 1 11
        [Comment.mk "p" "" "" 0 0 [] true ["x", "y"] false 0] false [] false 0]
      false [] false 0] }

/-- Counterexample to C2: the input forest has a placeholder at depth two
(`noMoreForest` is false on it), yet after the final sweep no placeholder
remains anywhere — the depth-two placeholder is not left in the returned
forest unchanged. -/
theorem cleanup_removes_deep_placeholder :
    noMoreForest exDeepDetail.comments = false ∧
    noMoreForest (cleanupMoreComments exDeepDetail).1.comments = true := by
  constructor
  · simp [exDeepDetail, noMoreForest]
  · rw [cleanupMoreComments_comments]; exact noMoreForest_purgeForest _

/-- C2 (amended): the final sweep removes every `is_placeholder` node at
every depth of the forest — not only at the root and first-level reply
lists — keeping all other comments in order; it coincides with the
full-depth purge. -/
theorem cleanup_is_full_depth_purge (detail : PostDetail) :
    (cleanupMoreComments detail).1.comments = purgeForest detail.comments :=
  cleanupMoreComments_comments detail

/-! Expansion-engine graft operations (internal/scraper/service.go). -/

/-- Embeds `scraperService.addWithoutDuplicates` (service.go lines
1006-1023): appends only those new comments whose id is not already present
in the existing list (the lookup set is built from the existing list once,
so duplicates within `newComments` are not filtered against each other). -/
def addWithoutDuplicates (existing newComments : List Comment) : List Comment :=
  existing ++ newComments.filter (fun c => !((existing.map Comment.id).contains c.id))

/-- Go's append-based splice at position `i` of a slice `s`:
`append(append(s[:i], new...), s[i+1:]...)` (service.go line 1053), the
final-element special case `append(s[:i], new...)` (line 1051) arising as
its empty-suffix instance.  `cap` is the capacity of the slice's backing
array — run-time heap state, with `len s ≤ cap`, threaded as a parameter.
When `i + len new ≤ cap` the inner append reuses the backing array and
writes the batch over positions `i, i+1, ...` before the outer append reads
the suffix `s[i+1:]`, so the suffix is taken from the overwritten array
(its first `len new - 1` entries are `new[1:]`); otherwise the inner append
reallocates and the original suffix follows the batch. -/
def goSpliceAt (cap : Nat) (s newComments : List Comment) (i : Nat) : List Comment :=
  if i + newComments.length ≤ cap then
    s.take i ++ newComments ++
      ((newComments ++ s.drop (i + newComments.length)).drop 1).take (s.length - i - 1)
  else
    s.take i ++ newComments ++ s.drop (i + 1)

/-- The loop of `scraperService.replacePlaceholder` (service.go lines
1048-1057): the first `IsMore` comment with the given id is replaced by the
batch through the append splice; `none` models the `false` return. -/
def replaceFirstPlaceholder (cap : Nat) (placeholderID : String)
    (newComments : List Comment) (comments : List Comment) : Option (List Comment) :=
  match comments.findIdx? (fun c => c.id == placeholderID && c.isMore) with
  | some i => some (goSpliceAt cap comments newComments i)
  | none => none

/-- Embeds `scraperService.replacePlaceholder` (service.go lines 1043-1059)
with its emptiness guards; `cap` is the capacity of the backing array of
the slice being spliced. -/
def replacePlaceholder (cap : Nat) (comments : List Comment) (placeholderID : String)
    (newComments : List Comment) : Option (List Comment) :=
  if comments.isEmpty ∨ newComments.isEmpty then none
  else replaceFirstPlaceholder cap placeholderID newComments comments

/-- Embeds `scraperService.replaceInTree` (service.go lines 1062-1081): for
each comment in order, first try `replacePlaceholder` inside its replies
when its id matches the parent, then recurse into its replies, then move on
to the rest of the list.  At most one splice succeeds per call, so the
single `cap` parameter is the capacity of whichever reply slice receives
it. -/
def replaceInTree (cap : Nat) (parentID placeholderID : String) (newComments : List Comment) :
    List Comment → Option (List Comment)
  | [] => none
  | Comment.mk i a b s t replies isM mIDs hasM mc :: rest =>
    if newComments.isEmpty then none
    else
      match (if i = parentID then replacePlaceholder cap replies placeholderID newComments
             else none) with
      | some rep2 => some (Comment.mk i a b s t rep2 isM mIDs hasM mc :: rest)
      | none =>
        match (if replies.isEmpty then none
               else replaceInTree cap parentID placeholderID newComments replies) with
        | some rep2 => some (Comment.mk i a b s t rep2 isM mIDs hasM mc :: rest)
        | none =>
          match replaceInTree cap parentID placeholderID newComments rest with
          | some rest2 => some (Comment.mk i a b s t replies isM mIDs hasM mc :: rest2)
          | none => none

/-- Embeds `scraperService.appendToParent` (service.go lines 1026-1040):
find the parent by id (the element itself first, then inside its replies,
then the rest of the list) and append the new comments to its replies with
`addWithoutDuplicates`. -/
def appendToParent (parentID : String) (newComments : List Comment) :
    List Comment → Option (List Comment)
  | [] => none
  | Comment.mk i a b s t replies isM mIDs hasM mc :: rest =>
    if i = parentID then
      some (Comment.mk i a b s t (addWithoutDuplicates replies newComments) isM mIDs hasM mc :: rest)
    else
      match (if replies.isEmpty then none
             else appendToParent parentID newComments replies) with
      | some rep2 => some (Comment.mk i a b s t rep2 isM mIDs hasM mc :: rest)
      | none =>
        match appendToParent parentID newComments rest with
        | some rest2 => some (Comment.mk i a b s t replies isM mIDs hasM mc :: rest2)
        | none => none

/-- First-occurrence deduplication by comment id, as done with the `idMap`
set in `placeComments` (service.go lines 957-967). -/
def dedupByIDAux (seen : List String) : List Comment → List Comment
  | [] => []
  | c :: rest =>
    if seen.contains c.id then dedupByIDAux seen rest
    else c :: dedupByIDAux (c.id :: seen) rest

def dedupByID (cs : List Comment) : List Comment := dedupByIDAux [] cs

/-- Models the `sort.Slice` call in `placeComments` (service.go lines
970-972), which orders the batch by creation time descending
(`CreatedAt.After`); Go's unstable sort is modelled by insertion sort with
the same comparator. -/
def sortByCreatedDesc (cs : List Comment) : List Comment :=
  List.insertionSort (fun a b => b.createdAt ≤ a.createdAt) cs

/-- Embeds the anonymous task record `{Parent, CommentIDs, Depth,
PlaceholderID}` used throughout the expansion engine (also named
`MoreCommentSet` in service.go). -/
structure MoreSet where
  parent : String
  commentIDs : List String
  depth : Int
  placeholderID : String

/-- Embeds `scraperService.placeComments` (service.go lines 947-1003):
dedupe the batch by id, sort it by creation time descending, then graft it:
at depth 0 replace the placeholder in the root list or fall back to a
deduplicated root append; at depth > 0 replace inside the parent's replies,
else append to the parent, else fall back to a deduplicated root append.
`cap` is the run-time capacity of the slice a successful replacement
splices into. -/
def placeComments (cap : Nat) (detail : PostDetail) (ms : MoreSet)
    (newComments : List Comment) : PostDetail :=
  if newComments.isEmpty then detail
  else
    let sorted := sortByCreatedDesc (dedupByID newComments)
    if ms.depth = 0 then
      match replacePlaceholder cap detail.comments ms.placeholderID sorted with
      | some cs => { detail with comments := cs }
      | none => { detail with comments := addWithoutDuplicates detail.comments sorted }
    else
      match replaceInTree cap ms.parent ms.placeholderID sorted detail.comments with
      | some cs => { detail with comments := cs }
      | none =>
        match appendToParent ms.parent sorted detail.comments with
        | some cs => { detail with comments := cs }
        | none => { detail with comments := addWithoutDuplicates detail.comments sorted }

/-- Pairwise-distinctness check for a list of strings, written as a Boolean
recursion so concrete instances evaluate. -/
def nodupStr : List String → Bool
  | [] => true
  | s :: rest => !rest.contains s && nodupStr rest

/-- The ordered list of top-level comment ids. -/
def forestIds (cs : List Comment) : List String := cs.map Comment.id

mutual

/-- Every ordered reply list anywhere inside the comment has
pairwise-distinct ids. -/
def okTree : Comment → Bool
  | .mk _ _ _ _ _ replies _ _ _ _ => nodupStr (forestIds replies) && okTreeList replies

def okTreeList : List Comment → Bool
  | [] => true
  | c :: rest => okTree c && okTreeList rest

end

/-- Every ordered comment list of the forest (the root list and every reply
list at any depth) has pairwise-distinct ids: invariant P2. -/
def okForest (cs : List Comment) : Bool := nodupStr (forestIds cs) && okTreeList cs

mutual

/-- All comment ids occurring anywhere in the tree. -/
def allIdsTree : Comment → List String
  | .mk i _ _ _ _ replies _ _ _ _ => i :: allIdsList replies

def allIdsList : List Comment → List String
  | [] => []
  | c :: rest => allIdsTree c ++ allIdsList rest

end

theorem nodupStr_iff (xs : List String) : nodupStr xs = true ↔ xs.Nodup := by
  induction xs with
  | nil => simp [nodupStr]
  | cons s rest ih => simp [nodupStr, ih, List.elem_iff]

theorem okTreeList_iff (cs : List Comment) :
    okTreeList cs = true ↔ ∀ c ∈ cs, okTree c = true := by
  induction cs with
  | nil => simp [okTreeList]
  | cons c rest ih => simp [okTreeList, ih]

theorem okTree_iff (c : Comment) :
    okTree c = true ↔ (forestIds c.replies).Nodup ∧ ∀ d ∈ c.replies, okTree d = true := by
  cases c
  simp [okTree, Comment.replies, nodupStr_iff, okTreeList_iff]

theorem okForest_iff (cs : List Comment) :
    okForest cs = true ↔ (forestIds cs).Nodup ∧ ∀ c ∈ cs, okTree c = true := by
  simp [okForest, nodupStr_iff, okTreeList_iff]

theorem mem_allIdsList_of_mem {cs : List Comment} {c : Comment} (h : c ∈ cs) :
    c.id ∈ allIdsList cs := by
  induction cs with
  | nil => cases h
  | cons x rest ih =>
    rcases List.mem_cons.mp h with h | h
    · subst h
      cases c
      simp [allIdsList, allIdsTree, Comment.id]
    · simp [allIdsList]
      exact Or.inr (ih h)

theorem forestIds_subset_allIdsList {cs : List Comment} {s : String}
    (h : s ∈ forestIds cs) : s ∈ allIdsList cs := by
  obtain ⟨c, hc, rfl⟩ := List.mem_map.mp h
  exact mem_allIdsList_of_mem hc

theorem allIdsTree_subset {cs : List Comment} {c : Comment} (h : c ∈ cs) :
    ∀ s ∈ allIdsTree c, s ∈ allIdsList cs := by
  induction cs with
  | nil => cases h
  | cons x rest ih =>
    intro s hs
    rcases List.mem_cons.mp h with h | h
    · subst h
      simp [allIdsList]
      exact Or.inl hs
    · simp [allIdsList]
      exact Or.inr (ih h s hs)

theorem replies_allIds_subset {c : Comment} {s : String}
    (h : s ∈ allIdsList c.replies) : s ∈ allIdsTree c := by
  cases c
  simp [allIdsTree, Comment.replies] at *
  exact Or.inr h

theorem okTree_eq_okForest (c : Comment) : okTree c = okForest c.replies := by
  cases c
  simp [okTree, okForest, Comment.replies]

theorem dedupByIDAux_subset {seen : List String} {cs : List Comment} :
    ∀ c ∈ dedupByIDAux seen cs, c ∈ cs := by
  induction cs generalizing seen with
  | nil => simp [dedupByIDAux]
  | cons c rest ih =>
    intro d hd
    unfold dedupByIDAux at hd
    by_cases hc : seen.contains c.id
    · rw [if_pos hc] at hd
      exact List.mem_cons_of_mem _ (ih _ hd)
    · rw [if_neg hc] at hd
      rcases List.mem_cons.mp hd with hd | hd
      · exact hd ▸ List.mem_cons_self _ _
      · exact List.mem_cons_of_mem _ (ih _ hd)

theorem dedupByIDAux_nodup (seen : List String) (cs : List Comment) :
    (forestIds (dedupByIDAux seen cs)).Nodup ∧
      ∀ s ∈ forestIds (dedupByIDAux seen cs), s ∉ seen := by
  induction cs generalizing seen with
  | nil => simp [dedupByIDAux, forestIds]
  | cons c rest ih =>
    unfold dedupByIDAux
    by_cases hc : seen.contains c.id
    · rw [if_pos hc]
      exact ih seen
    · rw [if_neg hc]
      have ih2 := ih (c.id :: seen)
      constructor
      · rw [forestIds, List.map_cons]
        refine List.Nodup.cons ?_ ih2.1
        intro hmem
        exact (ih2.2 _ hmem) (List.mem_cons_self _ _)
      · intro s hs
        rw [forestIds, List.map_cons] at hs
        rcases List.mem_cons.mp hs with hs | hs
        · subst hs
          intro hcontra
          exact hc (List.elem_iff.mpr hcontra)
        · intro hcontra
          exact ih2.2 s hs (List.mem_cons_of_mem _ hcontra)

theorem sortByCreatedDesc_perm (cs : List Comment) :
    (sortByCreatedDesc cs).Perm cs :=
  List.perm_insertionSort _ cs

theorem addWithoutDuplicates_ok {existing newC : List Comment}
    (h1 : okForest existing = true)
    (h2 : ∀ c ∈ newC, okTree c = true)
    (h3 : (forestIds newC).Nodup) :
    okForest (addWithoutDuplicates existing newC) = true := by
  rw [okForest_iff] at h1 ⊢
  unfold addWithoutDuplicates
  have hfil : ∀ c ∈ newC.filter (fun c => !((existing.map Comment.id).contains c.id)),
      c ∈ newC ∧ c.id ∉ existing.map Comment.id := by
    intro c hc
    rw [List.mem_filter] at hc
    refine ⟨hc.1, ?_⟩
    intro hmem
    obtain ⟨x, hx, hxid⟩ := List.mem_map.mp hmem
    have h2' : ∀ x ∈ existing, ¬x.id = c.id := by simpa using hc.2
    exact h2' x hx hxid
  constructor
  · rw [forestIds, List.map_append, List.nodup_append]
    refine ⟨h1.1, ?_, ?_⟩
    · exact h3.sublist ((List.filter_sublist _).map _)
    · intro s hs1 hs2
      obtain ⟨c, hc, rfl⟩ := List.mem_map.mp hs2
      exact (hfil c hc).2 hs1
  · intro c hc
    rcases List.mem_append.mp hc with hc | hc
    · exact h1.2 c hc
    · exact h2 c (hfil c hc).1

theorem okForest_cons (c : Comment) (rest : List Comment) :
    okForest (c :: rest) = true ↔
      c.id ∉ forestIds rest ∧ okTree c = true ∧ okForest rest = true := by
  rw [okForest_iff, okForest_iff]
  rw [forestIds, List.map_cons, List.nodup_cons]
  constructor
  · rintro ⟨⟨hni, hnd⟩, hall⟩
    exact ⟨hni, hall c (List.mem_cons_self _ _),
      hnd, fun d hd => hall d (List.mem_cons_of_mem _ hd)⟩
  · rintro ⟨hni, hc, hnd, hall⟩
    refine ⟨⟨hni, hnd⟩, ?_⟩
    intro d hd
    rcases List.mem_cons.mp hd with hd | hd
    · exact hd ▸ hc
    · exact hall d hd

theorem allIdsList_cons (c : Comment) (rest : List Comment) :
    allIdsList (c :: rest) = allIdsTree c ++ allIdsList rest := by
  simp [allIdsList]

theorem allIdsTree_mk (i a b : String) (s t : Int) (replies : List Comment)
    (isM : Bool) (mIDs : List String) (hasM : Bool) (mc : Int) :
    allIdsTree (Comment.mk i a b s t replies isM mIDs hasM mc) = i :: allIdsList replies := by
  simp [allIdsTree]

theorem atp_ids {pa : String} {newC cs cs' : List Comment}
    (h : appendToParent pa newC cs = some cs') :
    forestIds cs' = forestIds cs := by
  induction cs using appendToParent.induct pa newC generalizing cs' with
  | case1 => simp [appendToParent] at h
  | case2 a b s t replies isM mIDs hasM mc rest =>
    unfold appendToParent at h
    rw [if_pos rfl] at h
    obtain rfl := Option.some_injective _ h.symm
    simp [forestIds, Comment.id]
  | case3 i a b s t replies isM mIDs hasM mc rest hip rep2 hx ih =>
    rw [dite_eq_ite] at hx
    unfold appendToParent at h
    rw [if_neg hip, hx] at h
    obtain rfl := Option.some_injective _ h.symm
    simp [forestIds, Comment.id]
  | case4 i a b s t replies isM mIDs hasM mc rest hip hx1 rest2 hx2 ih2 ih1 =>
    rw [dite_eq_ite] at hx1
    unfold appendToParent at h
    rw [if_neg hip, hx1, hx2] at h
    obtain rfl := Option.some_injective _ h.symm
    simp only [forestIds, List.map_cons]
    rw [show List.map Comment.id rest2 = List.map Comment.id rest from ih1 hx2]
  | case5 i a b s t replies isM mIDs hasM mc rest hip hx1 hx2 ih2 ih1 =>
    rw [dite_eq_ite] at hx1
    unfold appendToParent at h
    rw [if_neg hip, hx1, hx2] at h
    cases h

theorem atp_ok {pa : String} {newC : List Comment}
    (h2 : ∀ c ∈ newC, okTree c = true) (h3 : (forestIds newC).Nodup)
    {cs cs' : List Comment}
    (h0 : okForest cs = true)
    (h : appendToParent pa newC cs = some cs') :
    okForest cs' = true := by
  induction cs using appendToParent.induct pa newC generalizing cs' with
  | case1 => simp [appendToParent] at h
  | case2 a b s t replies isM mIDs hasM mc rest =>
    unfold appendToParent at h
    rw [if_pos rfl] at h
    obtain rfl := Option.some_injective _ h.symm
    rw [okForest_cons] at h0 ⊢
    refine ⟨h0.1, ?_, h0.2.2⟩
    rw [okTree_eq_okForest]
    show okForest (addWithoutDuplicates replies newC) = true
    have hrep0 : okForest replies = true := by
      have := h0.2.1
      rwa [okTree_eq_okForest] at this
    exact addWithoutDuplicates_ok hrep0 h2 h3
  | case3 i a b s t replies isM mIDs hasM mc rest hip rep2 hx ih =>
    rw [dite_eq_ite] at hx
    unfold appendToParent at h
    rw [if_neg hip, hx] at h
    obtain rfl := Option.some_injective _ h.symm
    by_cases hre : replies.isEmpty
    · rw [if_pos hre] at hx; cases hx
    · rw [if_neg hre] at hx
      rw [okForest_cons] at h0 ⊢
      have hrep0 : okForest replies = true := by
        have := h0.2.1
        rwa [okTree_eq_okForest] at this
      refine ⟨h0.1, ?_, h0.2.2⟩
      rw [okTree_eq_okForest]
      exact ih hrep0 hx
  | case4 i a b s t replies isM mIDs hasM mc rest hip hx1 rest2 hx2 ih2 ih1 =>
    rw [dite_eq_ite] at hx1
    unfold appendToParent at h
    rw [if_neg hip, hx1, hx2] at h
    obtain rfl := Option.some_injective _ h.symm
    rw [okForest_cons] at h0 ⊢
    have hrest2 : okForest rest2 = true := ih1 h0.2.2 hx2
    refine ⟨?_, h0.2.1, hrest2⟩
    show (Comment.mk i a b s t replies isM mIDs hasM mc).id ∉ forestIds rest2
    rw [atp_ids hx2]
    exact h0.1
  | case5 i a b s t replies isM mIDs hasM mc rest hip hx1 hx2 ih2 ih1 =>
    rw [dite_eq_ite] at hx1
    unfold appendToParent at h
    rw [if_neg hip, hx1, hx2] at h
    cases h

/-- Root list for the sibling-duplicate failing input: a real comment `c1`
followed by a placeholder `p`; every list has pairwise-distinct ids.  The
placeholder is the last element, so the splice here is
capacity-independent. -/
def exC3Detail : PostDetail :=
  { post := { id := "post1", title := "", body := "", author := "", score := 0,
              createdAt := 0, flair := "", url := "" },
    comments := [Comment.mk "c1" "u" "b" 0 5 [] false [] false 0,
                 Comment.mk "p" "" "" 0 0 [] true ["x"] false 0] }

/-- The depth-0 task resolving placeholder `p`. -/
def exC3Set : MoreSet :=
  { parent := "post1", commentIDs := ["x"], depth := 0, placeholderID := "p" }

/-- A fetched batch that happens to carry the id `c1` again. -/
def exC3Batch : List Comment := [Comment.mk "c1" "u2" "dup" 0 7 [] false [] false 0]

/-- Root list for the aliasing failing input: the placeholder `p` first,
then the real comment `c1`; its backing array — built by two successive
appends in the decoder — has capacity 2. -/
def exC3AliasDetail : PostDetail :=
  { post := { id := "post1", title := "", body := "", author := "", score := 0,
              createdAt := 0, flair := "", url := "" },
    comments := [Comment.mk "p" "" "" 0 0 [] true ["x", "y"] false 0,
                 Comment.mk "c1" "u" "b" 0 5 [] false [] false 0] }

/-- The depth-0 task resolving the aliasing input's placeholder `p`. -/
def exC3AliasSet : MoreSet :=
  { parent := "post1", commentIDs := ["x", "y"], depth := 0, placeholderID := "p" }

/-- A fetched batch of two comments with fresh, pairwise-distinct ids, none
of which occurs in the input tree. -/
def exC3AliasBatch : List Comment :=
  [Comment.mk "n1" "u2" "x1" 0 9 [] false [] false 0,
   Comment.mk "n2" "u3" "x2" 0 8 [] false [] false 0]

/-- C3, evaluated at its failing inputs: the graft breaks the uniqueness
invariant the expansion engine is supposed to enforce.  First input: root
`[p, c1]` whose backing array has capacity 2, with the fresh duplicate-free
batch `[n1, n2]` — the splice's inner append overwrites `c1` with `n2`
before the outer append copies the suffix, so the graft returns ids
`[n1, n2, n2]`.  Second input: root `[c1, p]` (placeholder last, so the
splice is capacity-independent) with a batch carrying the id `c1` again —
the splice never deduplicates against existing siblings and the graft
returns ids `[c1, c1]`. -/
theorem graft_duplicates_ids_on_failing_inputs :
    (okForest exC3AliasDetail.comments = true ∧
     nodupStr (exC3AliasBatch.map Comment.id) = true ∧
     exC3AliasBatch.all
       (fun c => !((allIdsList exC3AliasDetail.comments).contains c.id)) = true ∧
     (placeComments 2 exC3AliasDetail exC3AliasSet exC3AliasBatch).comments.map Comment.id
       = ["n1", "n2", "n2"] ∧
     okForest (placeComments 2 exC3AliasDetail exC3AliasSet exC3AliasBatch).comments
       = false) ∧
    (okForest exC3Detail.comments = true ∧
     (placeComments 2 exC3Detail exC3Set exC3Batch).comments.map Comment.id
       = ["c1", "c1"] ∧
     okForest (placeComments 2 exC3Detail exC3Set exC3Batch).comments = false) := by
  refine ⟨⟨?_, ?_, ?_, ?_, ?_⟩, ?_, ?_, ?_⟩
  · simp [exC3AliasDetail, okForest, okTree, okTreeList, nodupStr, forestIds, Comment.id]
  · simp [exC3AliasBatch, nodupStr, Comment.id]
  · simp [exC3AliasBatch, exC3AliasDetail, allIdsList, allIdsTree, Comment.id]
  · simp [exC3AliasDetail, exC3AliasSet, exC3AliasBatch, placeComments, dedupByID,
      dedupByIDAux, sortByCreatedDesc, List.insertionSort, replacePlaceholder,
      replaceFirstPlaceholder, goSpliceAt, List.findIdx?, Comment.id, Comment.isMore,
      Comment.createdAt]
  · simp [exC3AliasDetail, exC3AliasSet, exC3AliasBatch, placeComments, dedupByID,
      dedupByIDAux, sortByCreatedDesc, List.insertionSort, replacePlaceholder,
      replaceFirstPlaceholder, goSpliceAt, List.findIdx?, okForest, okTree, okTreeList,
      nodupStr, forestIds, Comment.id, Comment.isMore, Comment.createdAt]
  · simp [exC3Detail, okForest, okTree, okTreeList, nodupStr, forestIds, Comment.id]
  · simp [exC3Detail, exC3Set, exC3Batch, placeComments, dedupByID, dedupByIDAux,
      sortByCreatedDesc, List.insertionSort, replacePlaceholder,
      replaceFirstPlaceholder, goSpliceAt, List.findIdx?, Comment.id, Comment.isMore,
      Comment.createdAt]
  · simp [exC3Detail, exC3Set, exC3Batch, placeComments, dedupByID, dedupByIDAux,
      sortByCreatedDesc, List.insertionSort, replacePlaceholder,
      replaceFirstPlaceholder, goSpliceAt, List.findIdx?, okForest, okTree, okTreeList,
      nodupStr, forestIds, Comment.id, Comment.isMore, Comment.createdAt]

/-- Embeds `models.RawChild` (internal/models/models.go lines 130-144), the
flat record for an upstream "Thing".  The Go `Replies` field holds raw JSON:
`none` models an empty or unparsable value (the decoder skips the recursion
in both cases), `some l` a non-empty object whose `data.children` decodes to
`l`. -/
inductive RawChild : Type where
  | mk (kind id author body : String) (score createdUTC : Int)
       (replies : Option (List RawChild)) (children : List String)
       (parentID : String) (count : Int) (permalink : String) : RawChild

def RawChild.kind : RawChild → String
  | .mk k _ _ _ _ _ _ _ _ _ _ => k

def RawChild.id : RawChild → String
  | .mk _ i _ _ _ _ _ _ _ _ _ => i

def RawChild.childIds : RawChild → List String
  | .mk _ _ _ _ _ _ _ ch _ _ _ => ch

/-- Models `uuid.New().String()`: the n-th locally generated unique id of a
parse, supplied by threading a counter through the decoder. -/
def uuidString (n : Nat) : String := toString n

/-- Embeds `RedditParser.processComments` (internal/parser/parser.go lines
295-374).  For a `t1` child: build a Comment, recurse into the decoded
replies, and scan those reply children for `more` nodes, which set
`HasMore` and extend `MoreIDs` on the parent.  For a `more` child with a
non-empty id list: emit a placeholder comment (a `continue_` thread
continuation if the list contains the sentinel, else a `more_` sibling
placeholder).  Anything else is skipped.  The second component threads the
uuid supply. -/
def processComments : List RawChild → Nat → List Comment × Nat
  | [], fresh => ([], fresh)
  | .mk kind i a b score created replies children parentID _ _ :: rest, fresh =>
    if kind = "t1" then
      match replies with
      | some replyChildren =>
        let rep := processComments replyChildren fresh
        let hasM := replyChildren.any (fun rc => rc.kind == "more" && !rc.childIds.isEmpty)
        let mIDs := (replyChildren.filter
          (fun rc => rc.kind == "more" && !rc.childIds.isEmpty)).flatMap RawChild.childIds
        let restOut := processComments rest rep.2
        (Comment.mk i a b score created rep.1 false mIDs hasM 0 :: restOut.1, restOut.2)
      | none =>
        let restOut := processComments rest fresh
        (Comment.mk i a b score created [] false [] false 0 :: restOut.1, restOut.2)
    else if kind = "more" then
      if children.isEmpty then processComments rest fresh
      else if children.contains "continue" then
        let restOut := processComments rest (fresh + 1)
        (Comment.mk ("continue_" ++ uuidString fresh) "" "" 0 0 [] true [parentID] true 0
          :: restOut.1, restOut.2)
      else
        let restOut := processComments rest (fresh + 1)
        (Comment.mk ("more_" ++ uuidString fresh) "" "" 0 0 [] true children false 0
          :: restOut.1, restOut.2)
    else processComments rest fresh

/-- Output monotonicity: everything decoded from the tail of a child list
appears in the output of the whole list (at an advanced uuid counter). -/
theorem processComments_cons_tail (x : RawChild) (rest : List RawChild) (fresh : Nat) :
    ∃ fresh2, ∀ p ∈ (processComments rest fresh2).1,
      p ∈ (processComments (x :: rest) fresh).1 := by
  obtain ⟨kind, i, a, b, score, created, replies, children, parentID, cnt, pl⟩ := x
  by_cases hk1 : kind = "t1"
  · subst hk1
    cases replies with
    | some replyChildren =>
      refine ⟨(processComments replyChildren fresh).2, ?_⟩
      intro p hp
      rw [processComments.eq_def]
      simp [hp]
    | none =>
      refine ⟨fresh, ?_⟩
      intro p hp
      rw [processComments.eq_def]
      simp [hp]
  · by_cases hk2 : kind = "more"
    · subst hk2
      by_cases hce : children.isEmpty
      · refine ⟨fresh, ?_⟩
        intro p hp
        rw [processComments.eq_def]
        simpa [hk1, hce] using hp
      · by_cases hcont : "continue" ∈ children
        · refine ⟨fresh + 1, ?_⟩
          intro p hp
          rw [processComments.eq_def]
          simp [hk1, hce, hcont, hp]
        · refine ⟨fresh + 1, ?_⟩
          intro p hp
          rw [processComments.eq_def]
          simp [hk1, hce, hcont, hp]
    · refine ⟨fresh, ?_⟩
      intro p hp
      rw [processComments.eq_def]
      simpa [hk1, hk2] using hp

/-- A `more` node (with ids, not a thread continuation) anywhere in a child
list yields a placeholder comment with exactly its id list in the decoder's
output. -/
theorem more_placeholder_emitted (rl : List RawChild) (fresh : Nat) (hm : RawChild)
    (h1 : hm ∈ rl) (h2 : hm.kind = "more") (h3 : hm.childIds ≠ [])
    (h4 : "continue" ∉ hm.childIds) :
    ∃ p ∈ (processComments rl fresh).1, p.isMore = true ∧ p.moreIDs = hm.childIds := by
  induction rl generalizing fresh with
  | nil => cases h1
  | cons x rest ih =>
    rcases List.mem_cons.mp h1 with hx | hx
    · subst hx
      obtain ⟨kind, i, a, b, score, created, replies, children, parentID, cnt, pl⟩ := hm
      rw [RawChild.kind] at h2
      subst h2
      rw [RawChild.childIds] at h3 h4 ⊢
      have hce : children.isEmpty = false := by
        cases children with
        | nil => exact absurd rfl h3
        | cons c cs => rfl
      refine ⟨Comment.mk ("more_" ++ uuidString fresh) "" "" 0 0 [] true children false 0,
        ?_, rfl, rfl⟩
      rw [processComments.eq_def]
      simp [hce, h4]
    · obtain ⟨fresh2, hsub⟩ := processComments_cons_tail x rest fresh
      obtain ⟨p, hp, hpm⟩ := ih fresh2 hx
      exact ⟨p, hsub p hp, hpm⟩

/-- Boolean check used by the amended C4 theorem: the first decoded comment
has `has_more_children`, its `more_ids` contain all the given ids, and its
replies contain a placeholder whose `more_ids` are exactly the given ids. -/
def headHasMoreWithPlaceholder (out : List Comment) (ids : List String) : Bool :=
  match out with
  | [] => false
  | c :: _ => c.hasMore && ids.all (fun s => c.moreIDs.contains s) &&
      c.replies.any (fun p => p.isMore && p.moreIDs == ids)

/-- C4 (amended): when the decoder processes a `t1` comment whose replies
contain a `more` node (with a non-empty id list, not a thread
continuation), it both adds that node's child ids to the parent's
`more_ids` with `has_more_children=true` AND emits the node as a separate
placeholder comment inside the parent's replies list, because the replies
are decoded with the same per-child logic. -/
theorem t1_more_sets_parent_and_emits_placeholder
    (i a b : String) (score created : Int) (rl : List RawChild)
    (children : List String) (parentID : String) (cnt : Int) (pl : String)
    (rest : List RawChild) (fresh : Nat) (hm : RawChild)
    (h1 : hm ∈ rl) (h2 : hm.kind = "more") (h3 : hm.childIds ≠ [])
    (h4 : "continue" ∉ hm.childIds) :
    headHasMoreWithPlaceholder
      (processComments
        (RawChild.mk "t1" i a b score created (some rl) children parentID cnt pl :: rest)
        fresh).1
      hm.childIds = true := by
  have hmem_filter : hm ∈ rl.filter (fun rc => rc.kind == "more" && !rc.childIds.isEmpty) := by
    refine List.mem_filter.mpr ⟨h1, ?_⟩
    simp [h2, h3]
  rw [processComments.eq_def]
  simp only [headHasMoreWithPlaceholder, Comment.hasMore, Comment.moreIDs, Comment.replies,
    if_true, Bool.and_eq_true]
  refine ⟨⟨?_, ?_⟩, ?_⟩
  · rw [List.any_eq_true]
    exact ⟨hm, h1, by simp [h2, h3]⟩
  · rw [List.all_eq_true]
    intro s hs
    rw [List.elem_iff]
    exact List.mem_flatMap.mpr ⟨hm, hmem_filter, hs⟩
  · rw [List.any_eq_true]
    obtain ⟨p, hp, hpm, hpe⟩ := more_placeholder_emitted rl fresh hm h1 h2 h3 h4
    refine ⟨p, hp, ?_⟩
    cases p
    rw [Comment.isMore] at hpm
    rw [Comment.moreIDs] at hpe
    simp [Comment.isMore, hpm, hpe]

/-- The `more` node sitting inside a `t1` comment's replies for the C4
counterexample. -/
def exC4More : RawChild := RawChild.mk "more" "" "" "" 0 0 none ["x", "y"] "par" 0 ""

/-- One `t1` child whose replies decode to a single `more` node. -/
def exC4Children : List RawChild :=
  [RawChild.mk "t1" "c1" "u" "hello" 2 100 (some [exC4More]) [] "" 0 ""]

/-- Counterexample to C4 as stated: decoding the single `t1` child sets the
parent's `has_more_children` and `more_ids` as claimed, but it ALSO emits
the `more` node as a placeholder comment inside the parent's replies list
(one reply, and it is a placeholder) — the claim said no such placeholder is
emitted in this position. -/
theorem decoder_emits_placeholder_in_replies :
    ((processComments exC4Children 0).1.map Comment.hasMore = [true]) ∧
    ((processComments exC4Children 0).1.map Comment.moreIDs = [["x", "y"]]) ∧
    ((processComments exC4Children 0).1.map
      (fun c => c.replies.map Comment.isMore) = [[true]]) := by
  refine ⟨?_, ?_, ?_⟩ <;>
    simp [exC4Children, exC4More, processComments, uuidString,
      Comment.hasMore, Comment.moreIDs, Comment.replies, Comment.isMore,
      RawChild.kind, RawChild.childIds]

theorem t1_more_witness :
    exC4More.kind = "more" ∧ exC4More.childIds = ["x", "y"] ∧
    headHasMoreWithPlaceholder
      (processComments
        (RawChild.mk "t1" "c1" "u" "hello" 2 100 (some [exC4More]) [] "" 0 "" :: [])
        0).1
      exC4More.childIds = true := by
  refine ⟨rfl, rfl, ?_⟩
  exact t1_more_sets_parent_and_emits_placeholder "c1" "u" "hello" 2 100 [exC4More]
    [] "" 0 "" [] 0 exC4More (List.mem_singleton.mpr rfl) rfl
    (by simp [exC4More, RawChild.childIds]) (by simp [exC4More, RawChild.childIds])

/-- Embeds the anonymous listing-child record of
`RedditParser.ParseUserComments` (internal/parser/parser.go lines 152-170). -/
structure UCChild where
  kind : String
  id : String
  body : String
  author : String
  score : Int
  createdUTC : Int
  subreddit : String
  linkID : String
  linkTitle : String
  parentID : String
deriving DecidableEq, Repr

/-- Embeds `models.UserComment`. -/
structure UserComment where
  id : String
  body : String
  score : Int
  createdAt : Int
  subreddit : String
  postID : String
  postTitle : String
  parentAuthor : String
deriving DecidableEq, Repr

/-- Embeds the child loop of `RedditParser.ParseUserComments`
(internal/parser/parser.go lines 177-197): keep `t1` children; the post id
is the raw `link_id` with its first three characters removed whenever its
length exceeds three (Go indexes bytes; ids are ASCII, so character count
coincides). -/
def ParseUserComments : List UCChild → List UserComment
  | [] => []
  | ch :: rest =>
    if ch.kind ≠ "t1" then ParseUserComments rest
    else
      { id := ch.id, body := ch.body, score := ch.score, createdAt := ch.createdUTC,
        subreddit := ch.subreddit,
        postID := if 3 < ch.linkID.length then ch.linkID.drop 3 else ch.linkID,
        postTitle := ch.linkTitle, parentAuthor := "" } :: ParseUserComments rest

/-- C10: every UserComment produced by ParseUserComments comes from a `t1`
child and carries as post id the raw `link_id` with its first three
characters removed whenever the length exceeds three — regardless of what
those characters are — and the unchanged `link_id` otherwise. -/
theorem parseUserComments_postID (children : List UCChild) (uc : UserComment)
    (h : uc ∈ ParseUserComments children) :
    ∃ ch ∈ children, ch.kind = "t1" ∧ uc.id = ch.id ∧
      uc.postID = if 3 < ch.linkID.length then ch.linkID.drop 3 else ch.linkID := by
  induction children with
  | nil => cases h
  | cons ch rest ih =>
    by_cases hk : ch.kind = "t1"
    · rw [ParseUserComments, if_neg (by simpa using hk)] at h
      rcases List.mem_cons.mp h with h | h
      · exact ⟨ch, List.mem_cons_self _ _, hk, by simp [h], by simp [h]⟩
      · obtain ⟨ch2, hm, hp⟩ := ih h
        exact ⟨ch2, List.mem_cons_of_mem _ hm, hp⟩
    · rw [ParseUserComments, if_pos (by simpa using hk)] at h
      obtain ⟨ch2, hm, hp⟩ := ih h
      exact ⟨ch2, List.mem_cons_of_mem _ hm, hp⟩

/-- A `t1` child whose `link_id` does not start with `t3_` at all. -/
def exC10Children : List UCChild :=
  [{ kind := "t1", id := "cm1", body := "b", author := "u", score := 1,
     createdUTC := 50, subreddit := "sub", linkID := "ab_xyz",
     linkTitle := "T", parentID := "t1_q" }]

theorem parseUserComments_postID_witness :
    ({ id := "cm1", body := "b", score := 1, createdAt := 50, subreddit := "sub",
       postID := "xyz", postTitle := "T", parentAuthor := "" } : UserComment)
        ∈ ParseUserComments exC10Children ∧
    (∃ ch ∈ exC10Children, ch.kind = "t1" ∧
      ({ id := "cm1", body := "b", score := 1, createdAt := 50, subreddit := "sub",
         postID := "xyz", postTitle := "T", parentAuthor := "" } : UserComment).id = ch.id ∧
      ({ id := "cm1", body := "b", score := 1, createdAt := 50, subreddit := "sub",
         postID := "xyz", postTitle := "T", parentAuthor := "" } : UserComment).postID =
        if 3 < ch.linkID.length then ch.linkID.drop 3 else ch.linkID) := by
  constructor
  · decide
  · exact parseUserComments_postID exC10Children _ (by decide)

/-! Pagination orchestrators (internal/scraper/service.go).  The upstream is
modelled as the deterministic sequence of parsed pages the service would
receive: the k-th fetch returns the k-th entry (an out-of-range fetch reads
as an empty page with an empty cursor).  Each loop also returns the list of
upstream requests it made (page-size parameter and cursor), so the claims
about "how many pages are fetched" are statable. -/

/-- One parsed listing page: the posts and the `after` cursor. -/
structure SubPage where
  posts : List Post
  nextAfter : String

def pageAt (pages : List SubPage) (k : Nat) : SubPage := (pages.get? k).getD ⟨[], ""⟩

/-- One upstream listing request: the `limit` value passed to the URL
constructor (0 means the parameter is omitted — upstream default page size)
and the `after` cursor (empty means none). -/
structure FetchReq where
  limitParam : Int
  after : String
deriving DecidableEq, Repr

/-- The timestamp filter used by every walker: an item is dropped when
`sinceTimestamp > 0 && item.CreatedAt.Unix() < sinceTimestamp`. -/
def droppedByCutoff (since created : Int) : Bool :=
  decide (0 < since) && decide (created < since)

/-- The page loop of `scraperService.ScrapeSubreddit` (service.go lines
103-172): filter each page by the cutoff, then stop on limit reached, on
cutoff reached, or on an empty page or cursor; the wall-clock check is
modelled as never firing. -/
def subredditLoop (pages : List SubPage) (since limit apiLimit : Int) :
    Nat → Nat → String → List Post → List FetchReq → List Post × List FetchReq
  | 0, _, _, acc, reqs => (acc, reqs)
  | fuel + 1, k, after, acc, reqs =>
    let page := pageAt pages k
    let reqs2 := reqs ++ [⟨apiLimit, after⟩]
    let kept := page.posts.filter (fun p => !droppedByCutoff since p.createdAt)
    let reached := page.posts.any (fun p => droppedByCutoff since p.createdAt)
    let acc2 := acc ++ kept
    if 0 < limit ∧ limit ≤ (acc2.length : Int) then (acc2, reqs2)
    else if reached then (acc2, reqs2)
    else if page.nextAfter = "" ∨ kept.length = 0 then (acc2, reqs2)
    else subredditLoop pages since limit apiLimit fuel (k + 1) page.nextAfter acc2 reqs2

/-- Per-page size in `ScrapeSubreddit` and `Search`: 100, lowered to a
positive limit below 100. -/
def subApiLimit (limit : Int) : Int := if 0 < limit ∧ limit < 100 then limit else 100

/-- Page budget of `ScrapeSubreddit`: 20, or 1000 when limit is -1. -/
def subMaxPages (limit : Int) : Nat := if limit = -1 then 1000 else 20

/-- The final truncation `posts = posts[:limit]` applied when
`limit > 0 && len(posts) > limit`. -/
def truncatePos {α : Type} (limit : Int) (ps : List α) : List α :=
  if 0 < limit ∧ limit < (ps.length : Int) then ps.take limit.toNat else ps

/-- The general (non-special-case) branch of `ScrapeSubreddit`. -/
def scrapeSubredditPaged (pages : List SubPage) (since limit : Int) :
    List Post × List FetchReq :=
  subredditLoop pages since limit (subApiLimit limit) (subMaxPages limit) 0 "" [] []

/-- Embeds `scraperService.ScrapeSubreddit` (service.go lines 47-181): the
`sinceTimestamp == 0 && limit == 0` special case fetches exactly one page
with the default page size and no cursor; otherwise the page loop runs with
per-page size 100 (or the positive limit when smaller) and a page budget of
20 (1000 when limit is -1), and a final positive limit truncates. -/
def ScrapeSubreddit (pages : List SubPage) (since limit : Int) :
    List Post × List FetchReq :=
  if since = 0 ∧ limit = 0 then ((pageAt pages 0).posts, [⟨0, ""⟩])
  else
    (truncatePos limit (scrapeSubredditPaged pages since limit).1,
     (scrapeSubredditPaged pages since limit).2)

/-- The page loop of `scraperService.Search` (service.go lines 1188-1261);
it differs from the subreddit loop in that the cutoff stop requires
`sinceTimestamp > 0` explicitly. -/
def searchLoop (pages : List SubPage) (since limit apiLimit : Int) :
    Nat → Nat → String → List Post → List FetchReq → List Post × List FetchReq
  | 0, _, _, acc, reqs => (acc, reqs)
  | fuel + 1, k, after, acc, reqs =>
    let page := pageAt pages k
    let reqs2 := reqs ++ [⟨apiLimit, after⟩]
    let kept := page.posts.filter (fun p => !droppedByCutoff since p.createdAt)
    let reached := page.posts.any (fun p => droppedByCutoff since p.createdAt)
    let acc2 := acc ++ kept
    if 0 < limit ∧ limit ≤ (acc2.length : Int) then (acc2, reqs2)
    else if reached ∧ 0 < since then (acc2, reqs2)
    else if page.nextAfter = "" ∨ kept.length = 0 then (acc2, reqs2)
    else searchLoop pages since limit apiLimit fuel (k + 1) page.nextAfter acc2 reqs2

/-- The effective limit of `Search`: -1 with no cutoff is coerced to 1000. -/
def searchEffLimit (since limitArg : Int) : Int :=
  if limitArg = -1 ∧ since = 0 then 1000 else limitArg

/-- Page budget of `Search`: 10, or 1000 for limit -1 with a cutoff, or
twice the estimated page count for a positive limit. -/
def searchMaxPages (since limit : Int) : Nat :=
  if limit = -1 ∧ 0 < since then 1000
  else if 0 < limit then
    (((limit + subApiLimit limit - 1).tdiv (subApiLimit limit)) * 2).toNat
  else 10

/-- The page walk of `Search` at its effective limit. -/
def searchPaged (pages : List SubPage) (since limitArg : Int) :
    List Post × List FetchReq :=
  searchLoop pages since (searchEffLimit since limitArg)
    (subApiLimit (searchEffLimit since limitArg))
    (searchMaxPages since (searchEffLimit since limitArg)) 0 "" [] []

/-- Embeds `scraperService.Search` (service.go lines 1150-1269): limit -1
with no cutoff is coerced to 1000; page size is 100 (or the positive limit
when smaller); the page budget is 10, or 1000 for limit -1 with a cutoff,
or twice the estimated page count for a positive limit; a final positive
limit truncates. -/
def Search (pages : List SubPage) (since limitArg : Int) :
    List Post × List FetchReq :=
  (truncatePos (searchEffLimit since limitArg) (searchPaged pages since limitArg).1,
   (searchPaged pages since limitArg).2)

/-- Embeds `models.UserPost`. -/
structure UserPost where
  id : String
  title : String
  body : String
  score : Int
  createdAt : Int
  subreddit : String
  url : String
  flair : String
deriving DecidableEq, Repr

def upPageAt (pages : List (List UserPost × String)) (k : Nat) :
    List UserPost × String := (pages.get? k).getD ([], "")

def ucPageAt (pages : List (List UserComment × String)) (k : Nat) :
    List UserComment × String := (pages.get? k).getD ([], "")

/-- The per-item loop shared (textually) by `fetchUserPosts` and
`fetchUserComments` (service.go lines 329-344 and 459-472): drop items past
the cutoff, append the rest, and return early (third component true) when a
positive effective limit is reached mid-page. -/
def userPostsScan (since effLimit : Int) :
    List UserPost → List UserPost → Bool → List UserPost × Bool × Bool
  | [], acc, reached => (acc, reached, false)
  | p :: ps, acc, reached =>
    if droppedByCutoff since p.createdAt then userPostsScan since effLimit ps acc true
    else if 0 < effLimit ∧ effLimit ≤ ((acc ++ [p]).length : Int) then
      (acc ++ [p], reached, true)
    else userPostsScan since effLimit ps (acc ++ [p]) reached

def userCommentsScan (since effLimit : Int) :
    List UserComment → List UserComment → Bool → List UserComment × Bool × Bool
  | [], acc, reached => (acc, reached, false)
  | c :: cs, acc, reached =>
    if droppedByCutoff since c.createdAt then userCommentsScan since effLimit cs acc true
    else if 0 < effLimit ∧ effLimit ≤ ((acc ++ [c]).length : Int) then
      (acc ++ [c], reached, true)
    else userCommentsScan since effLimit cs (acc ++ [c]) reached

/-- The page loop of `scraperService.fetchUserPosts` (service.go lines
307-380); the second component counts the pages fetched. -/
def fetchUserPostsLoop (pages : List (List UserPost × String))
    (since effLimit : Int) (needMulti : Bool) :
    Nat → Nat → List UserPost → List UserPost × Nat
  | 0, k, acc => (acc, k)
  | fuel + 1, k, acc =>
    let page := upPageAt pages k
    let scan := userPostsScan since effLimit page.1 acc false
    let acc2 := scan.1
    if scan.2.2 then (acc2, k + 1)
    else if scan.2.1 ∧ 0 < since then (acc2, k + 1)
    else if !needMulti then (acc2, k + 1)
    else if page.2 = "" ∨ acc2.length - acc.length = 0 then (acc2, k + 1)
    else fetchUserPostsLoop pages since effLimit needMulti fuel (k + 1) acc2

/-- Embeds `scraperService.fetchUserPosts` (service.go lines 259-384):
limit 0 walks a single page; limit -1 walks up to 1000 pages (500 without a
cutoff); a positive limit estimates `(limit/25+1)*2` pages capped at 50 and
needs pagination only when above 25 or a cutoff is set. -/
def fetchUserPosts (pages : List (List UserPost × String)) (since limit : Int) :
    List UserPost × Nat :=
  if limit = 0 then fetchUserPostsLoop pages since 0 false 1 0 []
  else if limit = -1 then
    fetchUserPostsLoop pages since (-1) true (if 0 < since then 1000 else 500) 0 []
  else
    fetchUserPostsLoop pages since limit (decide (25 < limit) || decide (0 < since))
      (min (((limit.tdiv 25 + 1) * 2).toNat) 50) 0 []

/-- The page loop of `scraperService.fetchUserComments` (service.go lines
437-507). -/
def fetchUserCommentsLoop (pages : List (List UserComment × String))
    (since effLimit : Int) (needMulti : Bool) :
    Nat → Nat → List UserComment → List UserComment × Nat
  | 0, k, acc => (acc, k)
  | fuel + 1, k, acc =>
    let page := ucPageAt pages k
    let scan := userCommentsScan since effLimit page.1 acc false
    let acc2 := scan.1
    if scan.2.2 then (acc2, k + 1)
    else if scan.2.1 ∧ 0 < since then (acc2, k + 1)
    else if !needMulti then (acc2, k + 1)
    else if page.2 = "" ∨ acc2.length - acc.length = 0 then (acc2, k + 1)
    else fetchUserCommentsLoop pages since effLimit needMulti fuel (k + 1) acc2

/-- Embeds `scraperService.fetchUserComments` (service.go lines 387-511),
mirroring `fetchUserPosts`. -/
def fetchUserComments (pages : List (List UserComment × String)) (since limit : Int) :
    List UserComment × Nat :=
  if limit = 0 then fetchUserCommentsLoop pages since 0 false 1 0 []
  else if limit = -1 then
    fetchUserCommentsLoop pages since (-1) true (if 0 < since then 1000 else 500) 0 []
  else
    fetchUserCommentsLoop pages since limit (decide (25 < limit) || decide (0 < since))
      (min (((limit.tdiv 25 + 1) * 2).toNat) 50) 0 []

/-- Two upstream pages, both with one post newer than the cutoff, the first
carrying a pagination cursor. -/
def exC5Pages : List SubPage :=
  [⟨[⟨"p1", "t", "b", "a", 0, 5, "", ""⟩], "cur1"⟩,
   ⟨[⟨"p2", "t", "b", "a", 0, 5, "", ""⟩], ""⟩]

/-- Counterexample to C5 as stated: with `limit=0` but `since_timestamp=1`,
the subreddit operation fetches two upstream pages (following the cursor),
not exactly one. -/
theorem limit0_with_since_fetches_two_pages :
    (ScrapeSubreddit exC5Pages 1 0).2.length = 2 ∧
    (ScrapeSubreddit exC5Pages 1 0).2.length ≠ 1 := by
  constructor <;> decide

/-- Request bookkeeping of the subreddit page loop: at most one request per
unit of page budget, every new request carrying the loop's page size. -/
theorem subredditLoop_reqs (pages : List SubPage) (since limit apiLimit : Int)
    (fuel : Nat) :
    ∀ k after acc reqs,
      ((subredditLoop pages since limit apiLimit fuel k after acc reqs).2.length
          ≤ reqs.length + fuel) ∧
      ∀ r ∈ (subredditLoop pages since limit apiLimit fuel k after acc reqs).2,
        r ∈ reqs ∨ r.limitParam = apiLimit := by
  induction fuel with
  | zero =>
    intro k after acc reqs
    exact ⟨by simp [subredditLoop], fun r hr => Or.inl (by simpa [subredditLoop] using hr)⟩
  | succ fuel ih =>
    intro k after acc reqs
    rw [subredditLoop]
    have hstep : ∀ (out : List Post),
        (((out, reqs ++ [(⟨apiLimit, after⟩ : FetchReq)]) :
            List Post × List FetchReq).2.length ≤ reqs.length + (fuel + 1)) ∧
        ∀ r ∈ ((out, reqs ++ [(⟨apiLimit, after⟩ : FetchReq)]) :
            List Post × List FetchReq).2, r ∈ reqs ∨ r.limitParam = apiLimit := by
      intro out
      constructor
      · simp only [List.length_append, List.length_singleton]
        omega
      · intro r hr
        rcases List.mem_append.mp hr with hr | hr
        · exact Or.inl hr
        · right
          rw [List.mem_singleton.mp hr]
    split_ifs with h1 h2 h3
    · exact hstep _
    · exact hstep _
    · exact hstep _
    · have hrec := ih (k + 1) (pageAt pages k).nextAfter
        (acc ++ (pageAt pages k).posts.filter (fun p => !droppedByCutoff since p.createdAt))
        (reqs ++ [⟨apiLimit, after⟩])
      refine ⟨le_trans hrec.1 (by simp only [List.length_append, List.length_singleton]; omega), ?_⟩
      intro r hr
      rcases hrec.2 r hr with hr2 | hr2
      · rcases List.mem_append.mp hr2 with hr3 | hr3
        · exact Or.inl hr3
        · right
          rw [List.mem_singleton.mp hr3]
      · exact Or.inr hr2

/-- C5 (amended): with `limit=0` and `since_timestamp=0`, exactly one
upstream page is fetched, with no page-size parameter (upstream default)
and no pagination cursor; with `limit=0` and a non-zero `since_timestamp`,
the general pagination loop runs instead — up to 20 pages, each requested
with page size 100. -/
theorem limit0_fetch_semantics (pages : List SubPage) (since limit : Int) :
    (since = 0 ∧ limit = 0 →
      (ScrapeSubreddit pages since limit).2 = [⟨0, ""⟩]) ∧
    (¬since = 0 → limit = 0 →
      (ScrapeSubreddit pages since limit).2.length ≤ 20 ∧
      ∀ r ∈ (ScrapeSubreddit pages since limit).2, r.limitParam = 100) := by
  constructor
  · rintro ⟨rfl, rfl⟩
    simp [ScrapeSubreddit]
  · rintro hs rfl
    rw [ScrapeSubreddit, if_neg (fun hcon => hs hcon.1)]
    dsimp only
    rw [scrapeSubredditPaged]
    have hapi : subApiLimit 0 = 100 := by simp [subApiLimit]
    have hmax : subMaxPages 0 = 20 := by simp [subMaxPages]
    rw [hapi, hmax]
    have hr := subredditLoop_reqs pages since 0 100 20 0 "" [] []
    refine ⟨by simpa using hr.1, ?_⟩
    intro r hrm
    rcases hr.2 r hrm with hr2 | hr2
    · simp at hr2
    · exact hr2


theorem limit0_fetch_semantics_witness :
    ((ScrapeSubreddit exC5Pages 0 0).2 = [⟨0, ""⟩]) ∧
    ((ScrapeSubreddit exC5Pages 1 0).2.length ≤ 20) ∧
    ((ScrapeSubreddit exC5Pages 1 0).2.all (fun r => r.limitParam == 100) = true) := by
  refine ⟨(limit0_fetch_semantics exC5Pages 0 0).1 ⟨rfl, rfl⟩, ?_, ?_⟩
  · exact ((limit0_fetch_semantics exC5Pages 1 0).2 (by decide) rfl).1
  · have h := ((limit0_fetch_semantics exC5Pages 1 0).2 (by decide) rfl).2
    rw [List.all_eq_true]
    intro r hr
    simp [h r hr]

/-- An item surviving the cutoff filter under a positive cutoff is at least
as new as the cutoff. -/
theorem kept_since {since created : Int} (hs : 0 < since)
    (h : (!droppedByCutoff since created) = true) : since ≤ created := by
  by_contra hlt
  rw [not_le] at hlt
  unfold droppedByCutoff at h
  rw [decide_eq_true hs, decide_eq_true hlt] at h
  simp at h

theorem mem_truncatePos {α : Type} {limit : Int} {ps : List α} {p : α}
    (h : p ∈ truncatePos limit ps) : p ∈ ps := by
  unfold truncatePos at h
  split_ifs at h
  · exact List.mem_of_mem_take h
  · exact h

theorem subredditLoop_since (pages : List SubPage) (since limit apiLimit : Int)
    (hs : 0 < since) (fuel : Nat) :
    ∀ k after acc reqs, (∀ p ∈ acc, since ≤ p.createdAt) →
      ∀ p ∈ (subredditLoop pages since limit apiLimit fuel k after acc reqs).1,
        since ≤ p.createdAt := by
  induction fuel with
  | zero =>
    intro k after acc reqs hacc p hp
    exact hacc p (by simpa [subredditLoop] using hp)
  | succ fuel ih =>
    intro k after acc reqs hacc
    have hacc2 : ∀ p ∈ acc ++ (pageAt pages k).posts.filter
        (fun p => !droppedByCutoff since p.createdAt), since ≤ p.createdAt := by
      intro p hp
      rcases List.mem_append.mp hp with hp | hp
      · exact hacc p hp
      · exact kept_since hs (List.mem_filter.mp hp).2
    rw [subredditLoop]
    split_ifs with h1 h2 h3
    · exact fun p hp => hacc2 p hp
    · exact fun p hp => hacc2 p hp
    · exact fun p hp => hacc2 p hp
    · exact ih (k + 1) (pageAt pages k).nextAfter _ _ hacc2

theorem searchLoop_since (pages : List SubPage) (since limit apiLimit : Int)
    (hs : 0 < since) (fuel : Nat) :
    ∀ k after acc reqs, (∀ p ∈ acc, since ≤ p.createdAt) →
      ∀ p ∈ (searchLoop pages since limit apiLimit fuel k after acc reqs).1,
        since ≤ p.createdAt := by
  induction fuel with
  | zero =>
    intro k after acc reqs hacc p hp
    exact hacc p (by simpa [searchLoop] using hp)
  | succ fuel ih =>
    intro k after acc reqs hacc
    have hacc2 : ∀ p ∈ acc ++ (pageAt pages k).posts.filter
        (fun p => !droppedByCutoff since p.createdAt), since ≤ p.createdAt := by
      intro p hp
      rcases List.mem_append.mp hp with hp | hp
      · exact hacc p hp
      · exact kept_since hs (List.mem_filter.mp hp).2
    rw [searchLoop]
    split_ifs with h1 h2 h3
    · exact fun p hp => hacc2 p hp
    · exact fun p hp => hacc2 p hp
    · exact fun p hp => hacc2 p hp
    · exact ih (k + 1) (pageAt pages k).nextAfter _ _ hacc2

theorem userPostsScan_since (since effLimit : Int) (hs : 0 < since) :
    ∀ (items acc : List UserPost) (reached : Bool),
      (∀ p ∈ acc, since ≤ p.createdAt) →
      ∀ p ∈ (userPostsScan since effLimit items acc reached).1, since ≤ p.createdAt := by
  intro items
  induction items with
  | nil =>
    intro acc reached hacc p hp
    exact hacc p (by simpa [userPostsScan] using hp)
  | cons x items ih =>
    intro acc reached hacc
    have hacc2 : (!droppedByCutoff since x.createdAt) = true →
        ∀ p ∈ acc ++ [x], since ≤ p.createdAt := by
      intro hkeep p hp
      rcases List.mem_append.mp hp with hp | hp
      · exact hacc p hp
      · rw [List.mem_singleton.mp hp]
        exact kept_since hs hkeep
    rw [userPostsScan]
    split_ifs with h1 h2
    · exact ih acc true hacc
    · exact fun p hp => hacc2 (by simpa using h1) p hp
    · exact ih (acc ++ [x]) reached (hacc2 (by simpa using h1))

theorem userCommentsScan_since (since effLimit : Int) (hs : 0 < since) :
    ∀ (items acc : List UserComment) (reached : Bool),
      (∀ c ∈ acc, since ≤ c.createdAt) →
      ∀ c ∈ (userCommentsScan since effLimit items acc reached).1, since ≤ c.createdAt := by
  intro items
  induction items with
  | nil =>
    intro acc reached hacc c hc
    exact hacc c (by simpa [userCommentsScan] using hc)
  | cons x items ih =>
    intro acc reached hacc
    have hacc2 : (!droppedByCutoff since x.createdAt) = true →
        ∀ c ∈ acc ++ [x], since ≤ c.createdAt := by
      intro hkeep c hc
      rcases List.mem_append.mp hc with hc | hc
      · exact hacc c hc
      · rw [List.mem_singleton.mp hc]
        exact kept_since hs hkeep
    rw [userCommentsScan]
    split_ifs with h1 h2
    · exact ih acc true hacc
    · exact fun c hc => hacc2 (by simpa using h1) c hc
    · exact ih (acc ++ [x]) reached (hacc2 (by simpa using h1))

theorem fetchUserPostsLoop_since (pages : List (List UserPost × String))
    (since effLimit : Int) (needMulti : Bool) (hs : 0 < since) (fuel : Nat) :
    ∀ k acc, (∀ p ∈ acc, since ≤ p.createdAt) →
      ∀ p ∈ (fetchUserPostsLoop pages since effLimit needMulti fuel k acc).1,
        since ≤ p.createdAt := by
  induction fuel with
  | zero =>
    intro k acc hacc p hp
    exact hacc p (by simpa [fetchUserPostsLoop] using hp)
  | succ fuel ih =>
    intro k acc hacc
    have hscan := userPostsScan_since since effLimit hs (upPageAt pages k).1 acc false hacc
    rw [fetchUserPostsLoop]
    split_ifs with h1 h2 h3 h4
    · exact hscan
    · exact hscan
    · exact hscan
    · exact hscan
    · exact ih (k + 1) _ hscan

theorem fetchUserCommentsLoop_since (pages : List (List UserComment × String))
    (since effLimit : Int) (needMulti : Bool) (hs : 0 < since) (fuel : Nat) :
    ∀ k acc, (∀ c ∈ acc, since ≤ c.createdAt) →
      ∀ c ∈ (fetchUserCommentsLoop pages since effLimit needMulti fuel k acc).1,
        since ≤ c.createdAt := by
  induction fuel with
  | zero =>
    intro k acc hacc c hc
    exact hacc c (by simpa [fetchUserCommentsLoop] using hc)
  | succ fuel ih =>
    intro k acc hacc
    have hscan := userCommentsScan_since since effLimit hs (ucPageAt pages k).1 acc false hacc
    rw [fetchUserCommentsLoop]
    split_ifs with h1 h2 h3 h4
    · exact hscan
    · exact hscan
    · exact hscan
    · exact hscan
    · exact ih (k + 1) _ hscan

/-- C7: with a positive `since_timestamp` T, every Post returned by the
subreddit walk, every UserPost and UserComment returned by the
user-activity walkers, and every Post returned by the search walk was
created at or after T. -/
theorem results_respect_since_cutoff
    (spages qpages : List SubPage) (uppages : List (List UserPost × String))
    (ucpages : List (List UserComment × String)) (T l1 l2 l3 l4 : Int)
    (hT : 0 < T) :
    (∀ p ∈ (ScrapeSubreddit spages T l1).1, T ≤ p.createdAt) ∧
    (∀ p ∈ (fetchUserPosts uppages T l2).1, T ≤ p.createdAt) ∧
    (∀ c ∈ (fetchUserComments ucpages T l3).1, T ≤ c.createdAt) ∧
    (∀ p ∈ (Search qpages T l4).1, T ≤ p.createdAt) := by
  refine ⟨?_, ?_, ?_, ?_⟩
  · intro p hp
    rw [ScrapeSubreddit, if_neg (fun hcon => absurd hcon.1 (by omega))] at hp
    dsimp only at hp
    have hp2 := mem_truncatePos hp
    rw [scrapeSubredditPaged] at hp2
    exact subredditLoop_since spages T l1 (subApiLimit l1) hT (subMaxPages l1)
      0 "" [] [] (by simp) p hp2
  · intro p hp
    rw [fetchUserPosts] at hp
    split_ifs at hp
    · exact fetchUserPostsLoop_since uppages T 0 false hT 1 0 [] (by simp) p hp
    · exact fetchUserPostsLoop_since uppages T (-1) true hT _ 0 [] (by simp) p hp
    · exact fetchUserPostsLoop_since uppages T l2 _ hT _ 0 [] (by simp) p hp
  · intro c hc
    rw [fetchUserComments] at hc
    split_ifs at hc
    · exact fetchUserCommentsLoop_since ucpages T 0 false hT 1 0 [] (by simp) c hc
    · exact fetchUserCommentsLoop_since ucpages T (-1) true hT _ 0 [] (by simp) c hc
    · exact fetchUserCommentsLoop_since ucpages T l3 _ hT _ 0 [] (by simp) c hc
  · intro p hp
    rw [Search] at hp
    dsimp only at hp
    have hp2 := mem_truncatePos hp
    rw [searchPaged] at hp2
    exact searchLoop_since qpages T (searchEffLimit T l4)
      (subApiLimit (searchEffLimit T l4)) hT
      (searchMaxPages T (searchEffLimit T l4)) 0 "" [] [] (by simp) p hp2


def exC7SPages : List SubPage := [⟨[⟨"p1", "t", "b", "a", 0, 5, "", ""⟩], ""⟩]

def exC7UPPages : List (List UserPost × String) :=
  [([⟨"up1", "t", "b", 0, 7, "s", "u", ""⟩], "")]

def exC7UCPages : List (List UserComment × String) :=
  [([⟨"uc1", "b", 0, 9, "s", "pid", "T", ""⟩], "")]

theorem results_respect_since_cutoff_witness :
    (0 : Int) < 1 ∧
    ((ScrapeSubreddit exC7SPages 1 5).1.all (fun p => decide (1 ≤ p.createdAt)) = true) ∧
    ((fetchUserPosts exC7UPPages 1 5).1.all (fun p => decide (1 ≤ p.createdAt)) = true) ∧
    ((fetchUserComments exC7UCPages 1 5).1.all (fun c => decide (1 ≤ c.createdAt)) = true) ∧
    ((Search exC7SPages 1 5).1.all (fun p => decide (1 ≤ p.createdAt)) = true) := by
  have h := results_respect_since_cutoff exC7SPages exC7SPages exC7UPPages exC7UCPages
    1 5 5 5 5 (by decide)
  refine ⟨by decide, ?_, ?_, ?_, ?_⟩
  · exact List.all_eq_true.mpr (fun p hp => decide_eq_true (h.1 p hp))
  · exact List.all_eq_true.mpr (fun p hp => decide_eq_true (h.2.1 p hp))
  · exact List.all_eq_true.mpr (fun c hc => decide_eq_true (h.2.2.1 c hc))
  · exact List.all_eq_true.mpr (fun p hp => decide_eq_true (h.2.2.2 p hp))

/-- The modulus of the rotator's `uint32` counter. -/
def u32Mod : Nat := 4294967296

/-- Embeds `ProxyRotator` (README, anti-detection transport): the proxy
pool (URLs modelled by their strings) and the `currentIdx` uint32 counter. -/
structure ProxyRotator where
  proxyURLs : List String
  currentIdx : Nat
deriving DecidableEq, Repr

/-- Embeds `ProxyRotator.NextProxy`: `atomic.AddUint32(&r.currentIdx, 1)`
returns the counter's NEW value (with uint32 wrap-around), and the proxy at
that value mod N is returned; an empty pool returns nil without touching
the counter. -/
def NextProxy (r : ProxyRotator) : Option String × ProxyRotator :=
  if r.proxyURLs.isEmpty then (none, r)
  else
    (r.proxyURLs.get? (((r.currentIdx + 1) % u32Mod) % r.proxyURLs.length),
     { r with currentIdx := (r.currentIdx + 1) % u32Mod })

/-- Embeds `ProxyRotator.GetProxyForID`: the proxy at `id mod N` for a
32-bit caller-supplied id; the counter is not read or written, which the
model reflects by not returning an updated rotator. -/
def GetProxyForID (r : ProxyRotator) (id : Nat) : Option String :=
  if r.proxyURLs.isEmpty then none
  else r.proxyURLs.get? ((id % u32Mod) % r.proxyURLs.length)

/-- The result of the (k+1)-st successive `NextProxy` call. -/
def nextProxyN (r : ProxyRotator) : Nat → Option String × ProxyRotator
  | 0 => NextProxy r
  | n + 1 => nextProxyN (NextProxy r).2 n

/-- Counterexample to C8 as stated: a fresh rotator over pool `["a", "b"]`
has counter 0, and the claim says "next" returns the proxy at index
`0 mod 2`, i.e. `"a"`; the code returns `"b"` (index 1), because Go's
`atomic.AddUint32` yields the incremented value. -/
theorem nextProxy_skips_index_zero :
    (NextProxy ⟨["a", "b"], 0⟩).1 ≠ some "a" ∧
    (NextProxy ⟨["a", "b"], 0⟩).1 = some "b" ∧
    (NextProxy ⟨["a", "b"], 0⟩).2.currentIdx = 1 := by
  refine ⟨?_, ?_, ?_⟩ <;> decide

theorem nextProxyN_spec (ps : List String) (h1 : ps ≠ []) (k : Nat) :
    ∀ c, (nextProxyN ⟨ps, c⟩ k).2.currentIdx = (c + k + 1) % u32Mod ∧
      (nextProxyN ⟨ps, c⟩ k).1 = ps.get? (((c + k + 1) % u32Mod) % ps.length) := by
  have hne : ps.isEmpty = false := by
    cases ps with
    | nil => exact absurd rfl h1
    | cons x xs => rfl
  induction k with
  | zero =>
    intro c
    rw [nextProxyN, NextProxy]
    rw [if_neg (by simp [hne])]
    exact ⟨rfl, rfl⟩
  | succ k ih =>
    intro c
    rw [nextProxyN, NextProxy]
    rw [if_neg (by simp [hne])]
    have := ih ((c + 1) % u32Mod)
    constructor
    · rw [this.1]
      simp only [u32Mod]
      omega
    · rw [this.2]
      congr 2
      simp only [u32Mod]
      omega

/-- C8 (amended): with a non-empty pool of N proxies, the (k+1)-st "next"
call of a fresh rotator returns the proxy at index `(k+1) mod N` and leaves
the counter at `k+1` — `atomic.AddUint32` returns the incremented counter,
so successive calls yield indices 1, 2, 3, ... mod N, not 0, 1, 2, ... —
while "for-id" with a 32-bit id returns the proxy at `id mod N` and leaves
the counter untouched. -/
theorem rotator_selection_semantics (ps : List String) (c k id : Nat)
    (h1 : ps ≠ []) (h2 : k + 1 < u32Mod) (h3 : id < u32Mod) :
    ((nextProxyN ⟨ps, 0⟩ k).1 = ps.get? ((k + 1) % ps.length)) ∧
    ((nextProxyN ⟨ps, 0⟩ k).2.currentIdx = k + 1) ∧
    (GetProxyForID ⟨ps, c⟩ id = ps.get? (id % ps.length)) := by
  have hne : ps.isEmpty = false := by
    cases ps with
    | nil => exact absurd rfl h1
    | cons x xs => rfl
  have hspec := nextProxyN_spec ps h1 k 0
  have hmod : (0 + k + 1) % u32Mod = k + 1 := by
    rw [Nat.zero_add, Nat.mod_eq_of_lt h2]
  refine ⟨?_, ?_, ?_⟩
  · rw [hspec.2, hmod]
  · rw [hspec.1, hmod]
  · rw [GetProxyForID, if_neg (by simp [hne]), Nat.mod_eq_of_lt h3]

theorem rotator_selection_semantics_witness :
    (["a", "b", "c"] : List String) ≠ [] ∧ 4 + 1 < u32Mod ∧ 7 < u32Mod ∧
    ((nextProxyN ⟨["a", "b", "c"], 0⟩ 4).1 = (["a", "b", "c"] : List String).get? ((4 + 1) % 3)) ∧
    ((nextProxyN ⟨["a", "b", "c"], 0⟩ 4).2.currentIdx = 5) ∧
    (GetProxyForID ⟨["a", "b", "c"], 9⟩ 7 = (["a", "b", "c"] : List String).get? (7 % 3)) := by
  have h := rotator_selection_semantics ["a", "b", "c"] 9 4 7
    (by decide) (by decide) (by decide)
  exact ⟨by decide, by decide, by decide, h.1, h.2.1, h.2.2⟩

/-- Go runtime panic kinds reachable in the embedded fragment. -/
inductive GoPanic : Type where
  | indexOutOfRange
deriving DecidableEq, Repr

/-- Embeds the double-gzip detection of `RetryableClient.Do` (README,
retryable transport): `len(bodyBytes) > 0 && bodyBytes[0] == 0x1f &&
bodyBytes[1] == 0x8b`, with Go's short-circuit `&&` and bounds-checked
indexing; `Except.error` models the index-out-of-range panic. -/
def doubleGzipCheck (bodyBytes : List Nat) : Except GoPanic Bool :=
  if 0 < bodyBytes.length then
    match bodyBytes.get? 0 with
    | some b0 =>
      if b0 = 0x1f then
        match bodyBytes.get? 1 with
        | some b1 => Except.ok (b1 = 0x8b)
        | none => Except.error GoPanic.indexOutOfRange
      else Except.ok false
    | none => Except.error GoPanic.indexOutOfRange
  else Except.ok false

/-- C9: the double-gzip check guards only `len(bodyBytes) > 0` before
reading index 1, so for every one-byte decoded body index 1 is out of
bounds, and when the single byte is 0x1f the check actually performs the
out-of-bounds access (the error branch is reachable). -/
theorem double_gzip_one_byte_oob (b : List Nat) (h : b.length = 1) :
    b.get? 1 = none ∧
    (b.get? 0 = some 0x1f → doubleGzipCheck b = Except.error GoPanic.indexOutOfRange) := by
  obtain ⟨a, rfl⟩ := List.length_eq_one.mp h
  refine ⟨rfl, ?_⟩
  intro ha
  obtain rfl := Option.some_injective _ ha
  rfl

theorem double_gzip_one_byte_oob_witness :
    ([0x1f] : List Nat).length = 1 ∧
    ([0x1f] : List Nat).get? 1 = none ∧
    doubleGzipCheck [0x1f] = Except.error GoPanic.indexOutOfRange := by
  have h := double_gzip_one_byte_oob [0x1f] rfl
  exact ⟨rfl, h.1, h.2 rfl⟩

/-- Go `map[string]string` reads through a total function: a missing key
reads as the zero value `""`. -/
def Params : Type := String → String

def emptyParams : Params := fun _ => ""

def setParam (m : Params) (k v : String) : Params :=
  fun k2 => if k2 = k then v else m k2

/-- Splits a character list at the first colon, when there is one. -/
def breakAtColon : List Char → Option (List Char × List Char)
  | [] => none
  | c :: cs =>
    if c = ':' then some ([], cs)
    else
      match breakAtColon cs with
      | some (pre, post) => some (c :: pre, post)
      | none => none

/-- Embeds `strings.SplitN(part, ":", 2)` restricted to its two relevant
components: the text before the first colon and everything after it (the
whole string with an empty remainder when there is no colon). -/
def splitN2 (part : String) : String × String :=
  match breakAtColon part.toList with
  | some (pre, post) => (String.mk pre, String.mk post)
  | none => (part, "")

/-- Embeds `strings.TrimSpace`. -/
def goTrim (s : String) : String :=
  String.mk (((s.toList.dropWhile Char.isWhitespace).reverse.dropWhile
    Char.isWhitespace).reverse)

def goFieldsAux : List Char → List Char → List String
  | [], cur => if cur.isEmpty then [] else [String.mk cur.reverse]
  | c :: cs, cur =>
    if c.isWhitespace then
      if cur.isEmpty then goFieldsAux cs []
      else String.mk cur.reverse :: goFieldsAux cs []
    else goFieldsAux cs (c :: cur)

/-- Embeds `strings.Fields`: whitespace tokenization with empty runs
dropped. -/
def goFields (s : String) : List String := goFieldsAux s.toList []

/-- The qualified-field keys of the compound-query switch
(search_handler.go lines 165-168). -/
def qualifiedKeys : List String :=
  ["subreddit", "author", "site", "url", "selftext", "self", "nsfw"]

/-- One iteration of the compound-query token loop (search_handler.go lines
158-177): a token containing a colon (`strings.Contains(part, ":")`)
populates a qualified field after trimming, or — when its key is not in the
switch — leaves the parameters untouched; a colon-free token is
concatenated into `search_string`. -/
def applyCompoundToken (params : Params) (part : String) : Params :=
  if part.toList.contains ':' then
    if qualifiedKeys.contains (goTrim (splitN2 part).1) then
      setParam params (goTrim (splitN2 part).1) (goTrim (splitN2 part).2)
    else params
  else
    if params "search_string" = "" then setParam params "search_string" part
    else setParam params "search_string" (params "search_string" ++ " " ++ part)

def processCompound (params : Params) (parts : List String) : Params :=
  parts.foldl applyCompoundToken params

/-- The keys copied verbatim from the query string when present
(search_handler.go lines 145-153). -/
def advancedParams : List String :=
  ["subreddit", "author", "site", "url", "selftext", "self", "nsfw", "restrict_sr"]

/-- Embeds `buildSearchParams` (search_handler.go lines 108-181) over the
request's query parameters (also read as a `Params`: a missing query
parameter reads as `""`). -/
def buildSearchParams (qp : Params) : Params :=
  let p1 := if qp "search_string" ≠ "" then
      setParam emptyParams "search_string" (qp "search_string") else emptyParams
  let p2 := if qp "after" ≠ "" then setParam p1 "after" (qp "after") else p1
  let p3 := if qp "before" ≠ "" then setParam p2 "before" (qp "before") else p2
  let p4 := if qp "sort" ≠ "" then setParam p3 "sort" (qp "sort")
      else setParam p3 "sort" "relevance"
  let p5 := if qp "time" ≠ "" then setParam p4 "time" (qp "time")
      else setParam p4 "time" "all"
  let p6 := if qp "limit" ≠ "" then setParam p5 "limit" (qp "limit")
      else setParam p5 "limit" "25"
  let p7 := advancedParams.foldl
      (fun m k => if qp k ≠ "" then setParam m k (qp k) else m) p6
  if qp "compound_query" ≠ "" then processCompound p7 (goFields (qp "compound_query"))
  else p7

/-- A request whose only parameter is `compound_query=foo:bar`. -/
def exC6QP : Params := fun k => if k = "compound_query" then "foo:bar" else ""

/-- Counterexample to C6 as stated: the token `foo:bar` has a key outside
the qualified-field set, and the claim says it is concatenated into
`search_string`; the code silently drops it, leaving `search_string`
empty. -/
theorem unqualified_colon_token_dropped :
    buildSearchParams exC6QP "search_string" = "" ∧
    buildSearchParams exC6QP "search_string" ≠ "foo:bar" := by
  constructor <;> decide

/-- The space-joining of tokens into `search_string` as the loop performs
it. -/
def joinSS (init : String) : List String → String
  | [] => init
  | t :: ts => joinSS (if init = "" then t else init ++ " " ++ t) ts

theorem qualified_key_ne_search_string {k : String}
    (h : qualifiedKeys.contains k = true) : k ≠ "search_string" := by
  have hk := List.elem_iff.mp h
  simp [qualifiedKeys] at hk
  rcases hk with rfl | rfl | rfl | rfl | rfl | rfl | rfl <;> decide

/-- A colon token never changes `search_string`. -/
theorem applyCompoundToken_colon_ss {params : Params} {part : String}
    (h : part.toList.contains ':' = true) :
    applyCompoundToken params part "search_string" = params "search_string" := by
  rw [applyCompoundToken, if_pos h]
  by_cases hq : qualifiedKeys.contains (goTrim (splitN2 part).1) = true
  · rw [if_pos hq]
    rw [setParam, if_neg ?_]
    exact fun hcon => qualified_key_ne_search_string hq hcon.symm
  · rw [if_neg hq]

theorem processCompound_ss (parts : List String) :
    ∀ params : Params,
      processCompound params parts "search_string" =
        joinSS (params "search_string")
          (parts.filter (fun p => !(p.toList.contains ':'))) := by
  induction parts with
  | nil => intro params; rfl
  | cons p ps ih =>
    intro params
    show processCompound (applyCompoundToken params p) ps "search_string" = _
    by_cases hc : p.toList.contains ':' = true
    · rw [List.filter_cons_of_neg (by simp only [Bool.not_eq_true', Bool.not_not]; simp; exact List.elem_iff.mp hc)]
      rw [ih (applyCompoundToken params p), applyCompoundToken_colon_ss hc]
    · have hc2 : p.toList.contains ':' = false := by
        cases h : p.toList.contains ':' with
        | false => rfl
        | true => exact absurd h hc
      rw [List.filter_cons_of_pos (by simp; exact fun hm => hc (List.elem_iff.mpr hm))]
      rw [ih (applyCompoundToken params p)]
      rw [joinSS]
      congr 1
      rw [applyCompoundToken, if_neg (by simp; exact fun hm => hc (List.elem_iff.mpr hm))]
      by_cases hss : params "search_string" = ""
      · rw [if_pos hss, setParam, if_pos rfl, hss]
        simp
      · rw [if_neg hss, setParam, if_pos rfl, if_neg hss]

/-- C6 (amended): in the compound-query loop, a `key:value` token whose key
is in the qualified-field set populates that (trimmed) field; a `key:value`
token whose key is outside the set is silently discarded, not added to
`search_string`; and exactly the colon-free tokens are concatenated
(space-joined, in order) into `search_string`. -/
theorem compound_query_semantics (params : Params) (parts : List String)
    (part q : String)
    (h1 : part.toList.contains ':' = true)
    (h2 : qualifiedKeys.contains (goTrim (splitN2 part).1) = false)
    (h3 : q.toList.contains ':' = true)
    (h4 : qualifiedKeys.contains (goTrim (splitN2 q).1) = true) :
    (applyCompoundToken params part = params) ∧
    (applyCompoundToken params q =
      setParam params (goTrim (splitN2 q).1) (goTrim (splitN2 q).2)) ∧
    (processCompound params parts "search_string" =
      joinSS (params "search_string")
        (parts.filter (fun p => !(p.toList.contains ':')))) := by
  refine ⟨?_, ?_, processCompound_ss parts params⟩
  · rw [applyCompoundToken, if_pos h1, if_neg (by rw [h2]; exact Bool.false_ne_true)]
  · rw [applyCompoundToken, if_pos h3, if_pos h4]

theorem compound_query_semantics_witness :
    ("foo:bar".toList.contains ':' = true) ∧
    (qualifiedKeys.contains (goTrim (splitN2 "foo:bar").1) = false) ∧
    (applyCompoundToken emptyParams "foo:bar" = emptyParams) ∧
    (applyCompoundToken emptyParams "subreddit:rust" =
      setParam emptyParams (goTrim (splitN2 "subreddit:rust").1)
        (goTrim (splitN2 "subreddit:rust").2)) ∧
    (processCompound emptyParams (goFields "golang subreddit:rust foo:bar hello")
        "search_string" =
      joinSS (emptyParams "search_string")
        ((goFields "golang subreddit:rust foo:bar hello").filter
          (fun p => !(p.toList.contains ':')))) := by
  have h := compound_query_semantics emptyParams
    (goFields "golang subreddit:rust foo:bar hello") "foo:bar" "subreddit:rust"
    (by decide) (by decide) (by decide) (by decide)
  exact ⟨by decide, by decide, h.1, h.2.1, h.2.2⟩

end RedditIngestion
